import Mathlib

/-!
Verification development for a prompt-management backend.

The embedded code comes from `backend/ai_engine.py` (the rule-based scoring
engine `PromptEvaluator`), `backend/routes/prompts.py` (prompt creation and
the version-creating update), `backend/routes/versions.py` (promote-to-current
and delete-version), and `backend/routes/evaluation.py` (evaluate-version and
the recommendation query), together with the ORM models in
`backend/models.py`.

Modelling conventions:
* Python floats are modelled as rationals; every arithmetic step in the
  scoring engine is a sum, product or quotient of small decimals, so the
  rational model tracks the intended decimal arithmetic exactly.
* Python strings are modelled as `String` and lists of `Char`; the lexical
  checks (`in`, `.lower()`, `.split()`, `.strip()`) are re-implemented
  faithfully for the ASCII texts the engine handles.
* The database session for a single prompt is modelled as an explicit state
  record; SQLAlchemy queries become pure list operations, with `first()` of
  an unordered filter taken as the head of the stored row order and
  `ORDER BY x DESC` taken as a stable descending sort on the stored row
  order (SQLite returns tied rows in storage order).
* The external readability estimator (`textstat`) and sentiment estimator
  (`TextBlob`) are parameters of the evaluation function: the readability
  outcome is an `Option` (it is `none` exactly when the library raises, the
  case the `try/except` fallback handles), the sentiment outcome is a
  polarity/subjectivity pair.
-/

namespace PromptMgr

/-! ### Character and string utilities mirroring Python `str` methods -/

/-- Whitespace characters recognised by Python's default `str.split` and
`str.strip`. -/
def isPySpace (c : Char) : Bool :=
  c == ' ' || c == '\t' || c == '\n' || c == '\r' || c == '\x0b' || c == '\x0c'

/-- ASCII lower-casing of one character, as Python's `str.lower` acts on the
ASCII texts handled by the engine. -/
def lowerChar (c : Char) : Char :=
  if 'A' ≤ c && c ≤ 'Z' then Char.ofNat (c.toNat + 32) else c

/-- Lower-case a character list. -/
def lowerList (l : List Char) : List Char := l.map lowerChar

/-- Lower-case a string (Python `s.lower()`). -/
def lowerStr (s : String) : String := ⟨lowerList s.data⟩

/-- Whether `pre` is an initial segment of `l`. -/
def leadsWith : List Char → List Char → Bool
  | [], _ => true
  | _ :: _, [] => false
  | a :: as, b :: bs => a == b && leadsWith as bs

/-- Whether `sub` occurs contiguously inside `l` (Python's `sub in s`). -/
def hasSub (sub : List Char) : List Char → Bool
  | [] => sub.isEmpty
  | a :: t => leadsWith sub (a :: t) || hasSub sub t

/-- Substring test on strings (Python `kw in text`). -/
def strContains (s kw : String) : Bool := hasSub kw.data s.data

/-- Number of whitespace-separated words, i.e. `len(s.split())` in Python.
The boolean argument records whether the scan is inside a word. -/
def wordCountAux : Bool → List Char → Nat
  | _, [] => 0
  | inWord, c :: t =>
    if isPySpace c then wordCountAux false t
    else (if inWord then 0 else 1) + wordCountAux true t

/-- Python `len(text.split())`. -/
def pySplitCount (s : String) : Nat := wordCountAux false s.data

/-- Python `s.strip()` on a character list. -/
def stripChars (l : List Char) : List Char :=
  ((l.dropWhile isPySpace).reverse.dropWhile isPySpace).reverse

/-- Python `s.strip()`. -/
def stripStr (s : String) : String := ⟨stripChars s.data⟩

/-- Python's `max(0, min(100, s))` clamp used at the end of each score rule:
below 0 becomes 0, above 100 becomes 100, anything else is unchanged. -/
def clampScore (q : ℚ) : ℚ :=
  if q < 0 then 0 else if 100 < q then 100 else q

/-- Python's `max(0, x)`. -/
def pyMax0 (q : ℚ) : ℚ := if q < 0 then 0 else q

/-- Python's `round(x, 2)`: scale by 100, round halves to even, scale back. -/
def pyRound2 (q : ℚ) : ℚ :=
  let scaled := q * 100
  let f : ℤ := Rat.floor scaled
  let frac : ℚ := scaled - f
  let n : ℤ :=
    if frac < 1/2 then f
    else if frac > 1/2 then f + 1
    else if f % 2 = 0 then f else f + 1
  (n : ℚ) / 100

/-! ### Fixed keyword tables of `PromptEvaluator` (ai_engine.py) -/

/-- `VAGUE_KEYWORDS` from ai_engine.py. -/
def vagueKeywords : List String :=
  ["something", "stuff", "thing", "things", "maybe", "etc", "whatever",
   "somehow", "somewhere", "anything", "everything", "nothing",
   "kind of", "sort of", "like", "basically", "actually"]

/-- `CLEAR_ACTION_WORDS` from ai_engine.py. -/
def clearActionWords : List String :=
  ["create", "generate", "write", "analyze", "summarize", "explain",
   "list", "describe", "compare", "evaluate", "implement", "design",
   "calculate", "find", "search", "extract", "convert", "translate",
   "review", "optimize", "debug", "test", "validate", "format"]

/-- `DOMAIN_KEYWORDS` from ai_engine.py, as a lookup from the lower-cased
domain tag to its keyword table (`none` when the tag is unrecognised). -/
def domainKeywords (d : String) : Option (List String) :=
  if d == "healthcare" then
    some ["patient", "diagnosis", "treatment", "medical", "health",
          "symptom", "disease", "medication", "clinical", "doctor",
          "hospital", "therapy", "prescription", "nursing", "surgery"]
  else if d == "coding" then
    some ["function", "code", "debug", "implement", "api", "class",
          "method", "variable", "algorithm", "database", "server",
          "frontend", "backend", "python", "javascript", "sql"]
  else if d == "education" then
    some ["teach", "explain", "learn", "student", "lesson", "course",
          "curriculum", "assignment", "grade", "exam", "tutorial",
          "concept", "theory", "practice", "exercise", "quiz"]
  else if d == "business" then
    some ["revenue", "profit", "customer", "market", "strategy",
          "sales", "product", "service", "growth", "investment",
          "roi", "kpi", "analytics", "report", "presentation"]
  else if d == "creative" then
    some ["story", "poem", "character", "plot", "narrative",
          "fiction", "dialogue", "scene", "imagination", "creative",
          "artistic", "style", "voice", "theme", "metaphor"]
  else if d == "legal" then
    some ["contract", "agreement", "clause", "terms", "legal",
          "compliance", "regulation", "law", "court", "litigation",
          "policy", "liability", "rights", "obligation", "statute"]
  else none

/-- `TASK_INDICATORS` from ai_engine.py, as a lookup from the lower-cased
task tag to its indicator table. -/
def taskIndicators (t : String) : Option (List String) :=
  if t == "generation" then
    some ["create", "generate", "write", "produce", "make", "build",
          "compose", "draft", "construct", "develop", "design"]
  else if t == "analysis" then
    some ["analyze", "evaluate", "assess", "review", "examine",
          "investigate", "study", "inspect", "critique", "audit"]
  else if t == "summarization" then
    some ["summarize", "condense", "shorten", "brief", "synopsis",
          "overview", "abstract", "digest", "recap", "outline"]
  else if t == "translation" then
    some ["translate", "convert", "transform", "adapt", "localize",
          "interpret", "render", "transpose"]
  else if t == "classification" then
    some ["classify", "categorize", "sort", "organize", "group",
          "label", "tag", "identify", "distinguish"]
  else if t == "extraction" then
    some ["extract", "find", "locate", "identify", "retrieve",
          "pull", "get", "fetch", "obtain", "gather"]
  else none

/-- Context-specificity words checked by `_calculate_relevance_score`. -/
def contextWords : List String :=
  ["for", "about", "regarding", "concerning", "related to"]

/-- Output-format words checked by `_calculate_relevance_score`. -/
def formatWords : List String :=
  ["json", "list", "table", "bullet", "paragraph", "code", "markdown"]

/-! ### Clarity scoring (`_calculate_clarity_score`) -/

/-- The regex `(\d+\.|•|-)\s` of clarity rule 4: some position holds either a
bullet or hyphen followed by whitespace, or a digit, a period and then
whitespace (the last digit of a `\d+` run). -/
def hasListMarker : List Char → Bool
  | [] => false
  | [_] => false
  | a :: b :: rest =>
    ((a == '•' || a == '-') && isPySpace b)
      || (a.isDigit && b == '.' && (match rest with
            | c :: _ => isPySpace c
            | [] => false))
      || hasListMarker (b :: rest)

/-- Result record of `_calculate_clarity_score`. -/
structure ClarityResult where
  score : ℚ
  notes : List String
  actionWordsFound : List String
  vagueWordsFound : List String
deriving DecidableEq, Repr

/-- `_calculate_clarity_score` from ai_engine.py: base 100, −8 per vague
keyword match, +5 per clear action word (−15 when none), +5 for a question
mark, +10 for a numbered-list or bullet marker, +5 for any digit, −10 when
more than half the characters are upper-case, clamped to [0, 100]. -/
def calcClarity (text : String) : ClarityResult :=
  let pl := lowerList text.data
  let vague := vagueKeywords.filter (fun k => hasSub k.data pl)
  let action := clearActionWords.filter (fun k => hasSub k.data pl)
  let s1 : ℚ := 100 - 8 * vague.length
  let s2 : ℚ := s1 + 5 * action.length - (if action.isEmpty then 15 else 0)
  let s3 : ℚ := if text.data.contains '?' then s2 + 5 else s2
  let s4 : ℚ := if hasListMarker text.data then s3 + 10 else s3
  let s5 : ℚ := if text.data.any Char.isDigit then s4 + 5 else s4
  let denom : ℕ := if text.data.length = 0 then 1 else text.data.length
  let capsRatio : ℚ :=
    ((text.data.filter Char.isUpper).length : ℚ) / (denom : ℕ)
  let s6 : ℚ := if capsRatio > 1/2 then s5 - 10 else s5
  let notes :=
    (if vague.isEmpty then []
     else ["Vague terms found: " ++ String.intercalate ", " (vague.take 3)])
    ++ (if action.isEmpty then ["Missing clear action verbs"] else [])
    ++ (if hasListMarker text.data then ["Well-structured with lists"] else [])
    ++ (if capsRatio > 1/2 then ["Too many capital letters"] else [])
  ⟨clampScore s6, notes, action, vague⟩

/-! ### Relevance scoring (`_calculate_relevance_score`) -/

/-- Result record of `_calculate_relevance_score`. -/
structure RelevanceResult where
  score : ℚ
  notes : List String
  domainMatches : List String
  taskMatches : List String
deriving DecidableEq, Repr

/-- `_calculate_relevance_score` from ai_engine.py: base 50; when the domain
is supplied, non-empty and recognised, +5 per matched domain keyword or −10
when none match; when the task type is supplied, non-empty and recognised,
+8 per matched task indicator or −15 when none match; +10 for a context
word; +10 for an output-format word; clamped to [0, 100]. -/
def calcRelevance (text : String) (taskType domain : Option String) :
    RelevanceResult :=
  let pl := lowerList text.data
  let domPart : ℚ × List String × List String :=
    match domain with
    | none => (0, [], [])
    | some d =>
      if d.isEmpty then (0, [], [])
      else
        match domainKeywords (lowerStr d) with
        | none => (0, [], [])
        | some kws =>
          let ms := kws.filter (fun k => hasSub k.data pl)
          if ms.isEmpty then
            (-10, ["Low relevance to " ++ d ++ " domain"], [])
          else
            (5 * ms.length,
             ["Matches " ++ d ++ ": " ++ String.intercalate ", " (ms.take 3)],
             ms)
  let taskPart : ℚ × List String × List String :=
    match taskType with
    | none => (0, [], [])
    | some t =>
      if t.isEmpty then (0, [], [])
      else
        match taskIndicators (lowerStr t) with
        | none => (0, [], [])
        | some kws =>
          let ms := kws.filter (fun k => hasSub k.data pl)
          if ms.isEmpty then
            (-15, ["Doesn\x27t align with " ++ t ++ " task"], [])
          else
            (8 * ms.length, ["Good " ++ t ++ " indicators"], ms)
  let hasContext := contextWords.any (fun w => hasSub w.data pl)
  let hasFormat := formatWords.any (fun w => hasSub w.data pl)
  let raw : ℚ := 50 + domPart.1 + taskPart.1
    + (if hasContext then 10 else 0) + (if hasFormat then 10 else 0)
  let notes := domPart.2.1 ++ taskPart.2.1
    ++ (if hasFormat then ["Specifies output format"] else [])
  ⟨clampScore raw, notes, domPart.2.2, taskPart.2.2⟩

/-! ### Length scoring (`_calculate_length_score`) -/

/-- Result record of `_calculate_length_score`. -/
structure LengthResult where
  score : ℚ
  notes : List String
  wordCount : ℕ
  optimalRange : String
deriving DecidableEq, Repr

/-- `_calculate_length_score` from ai_engine.py, piecewise over the word
count with thresholds MIN_WORDS = 5, OPTIMAL_MIN_WORDS = 15,
OPTIMAL_MAX_WORDS = 150, MAX_WORDS = 300, clamped to [0, 100]. -/
def calcLength (text : String) : LengthResult :=
  let wc := pySplitCount text
  let w : ℚ := wc
  let part : ℚ × List String :=
    if wc < 5 then
      ((w / 5) * 30, ["Too short (" ++ toString wc ++ " words)"])
    else if wc < 15 then
      (50 + ((w - 5) / 10) * 30,
       ["Could be more detailed (" ++ toString wc ++ " words)"])
    else if wc ≤ 150 then
      (100, ["Optimal length (" ++ toString wc ++ " words)"])
    else if wc ≤ 300 then
      (100 - ((w - 150) / 150) * 30,
       ["Slightly long (" ++ toString wc ++ " words)"])
    else
      (pyMax0 (70 - ((w - 300) / 50) * 10),
       ["Too long (" ++ toString wc ++ " words)"])
  ⟨clampScore part.1, part.2, wc, "15-150"⟩

/-! ### Auxiliary diagnostics (`_calculate_readability`, `_analyze_sentiment`) -/

/-- Result record of `_calculate_readability`. -/
structure ReadabilityResult where
  fleschReadingEase : ℚ
  gradeLevel : String
  notes : List String
deriving DecidableEq, Repr

/-- `_calculate_readability` from ai_engine.py. The external `textstat`
computation is passed in as `outcome`: `some (ease, grade)` when the library
returns, `none` when it raises, the case absorbed by the `try/except`
fallback to an ease of 50.0 and grade "N/A". -/
def calcReadability (outcome : Option (ℚ × String)) : ReadabilityResult :=
  let fs : ℚ := match outcome with | some p => p.1 | none => 50
  let gl : String := match outcome with | some p => p.2 | none => "N/A"
  let notes :=
    if fs < 30 then ["Very difficult to read"]
    else if fs > 90 then ["Very simple language"]
    else []
  ⟨fs, gl, notes⟩

/-- Result record of `_analyze_sentiment`. -/
structure SentimentResult where
  polarity : ℚ
  subjectivity : ℚ
  notes : List String
deriving DecidableEq, Repr

/-- `_analyze_sentiment` from ai_engine.py, with the TextBlob polarity and
subjectivity supplied as inputs. -/
def analyzeSentiment (pol subj : ℚ) : SentimentResult :=
  ⟨pyRound2 pol, pyRound2 subj,
   if subj > 7/10 then ["Highly subjective language detected"] else []⟩

/-! ### The full evaluation (`PromptEvaluator.evaluate`) -/

/-- Result record of `PromptEvaluator.evaluate`. -/
structure EvalResult where
  clarityScore : ℚ
  relevanceScore : ℚ
  lengthScore : ℚ
  finalScore : ℚ
  evaluationNotes : String
  clarity : ClarityResult
  relevance : RelevanceResult
  length : LengthResult
  readability : ReadabilityResult
  sentiment : SentimentResult
deriving DecidableEq, Repr

/-- `PromptEvaluator.evaluate` with the default weights 0.4 / 0.4 / 0.2 of
the module-level singleton used by the routes. `readOutcome` and `sent` feed
the two external estimators as described at `calcReadability` and
`analyzeSentiment`. -/
def evaluateFull (text : String) (taskType domain : Option String)
    (readOutcome : Option (ℚ × String)) (sent : ℚ × ℚ) : EvalResult :=
  let c := calcClarity text
  let r := calcRelevance text taskType domain
  let l := calcLength text
  let rd := calcReadability readOutcome
  let st := analyzeSentiment sent.1 sent.2
  let final : ℚ := c.score * (2/5) + r.score * (2/5) + l.score * (1/5)
  let allNotes := c.notes ++ r.notes ++ l.notes ++ rd.notes ++ st.notes
  { clarityScore := pyRound2 c.score
    relevanceScore := pyRound2 r.score
    lengthScore := pyRound2 l.score
    finalScore := pyRound2 final
    evaluationNotes :=
      if allNotes.isEmpty then "No issues found."
      else String.intercalate " | " allNotes
    clarity := c
    relevance := r
    length := l
    readability := rd
    sentiment := st }

/-! ### Version store: one prompt's version rows (models.py, prompts.py,
versions.py)

The per-prompt lock (`SELECT ... FOR UPDATE`) serialises every structural
operation on one prompt's version set, so the durable effect of each request
is a function from the prompt's committed state to the next committed state;
that function is what is embedded here. -/

/-- One row of `prompt_versions` for the prompt under consideration. -/
structure Version where
  id : ℕ
  versionNumber : ℕ
  promptText : String
  changeNotes : String
  isCurrent : Bool
deriving DecidableEq, Repr

/-- The committed version rows of one prompt, in storage (insertion) order,
plus the autoincrement counter supplying fresh primary keys. -/
structure PromptState where
  versions : List Version
  nextId : ℕ
deriving DecidableEq, Repr

/-- Error kinds surfaced by the routes: 404 not-found and the 400 returned
for deleting a sole version. -/
inductive VErr where
  | notFound
  | invalidOperation
deriving DecidableEq, Repr

/-- Number of rows with `is_current = True`. -/
def curCount (vs : List Version) : ℕ :=
  (vs.filter (fun v => v.isCurrent)).length

/-- `Prompt.get_current_version`: `filter_by(is_current=True).first()`. -/
def getCurrentVersion (vs : List Version) : Option Version :=
  (vs.filter (fun v => v.isCurrent)).head?

/-- One step of the maximum-version-number scan: keep the earlier row on
ties, as `order_by(version_number.desc()).first()` does for the storage
order. -/
def latestStep (acc : Option Version) (v : Version) : Option Version :=
  match acc with
  | none => some v
  | some w => if w.versionNumber < v.versionNumber then some v else some w

/-- `Prompt.get_latest_version`: `order_by(version_number.desc()).first()`,
i.e. the first row attaining the maximal version number. -/
def getLatestVersion (vs : List Version) : Option Version :=
  vs.foldl latestStep none

/-- `create_prompt` (prompts.py): after validation the prompt is inserted
together with its initial version, `version_number = 1`,
`change_notes = 'Initial version'`, `is_current = True`. -/
def createPrompt (promptText : String) : PromptState :=
  { versions := [{ id := 0, versionNumber := 1, promptText := stripStr promptText,
                   changeNotes := "Initial version", isCurrent := true }],
    nextId := 1 }

/-- `update_prompt`'s next version number:
`(latest.version_number + 1) if latest else 1`. -/
def nextVersionNumber (s : PromptState) : ℕ :=
  match getLatestVersion s.versions with
  | some l => l.versionNumber + 1
  | none => 1

/-- The version `update_prompt` inserts for a stripped new text:
`version_number = nextVersionNumber`, change notes defaulting to
`'Version <n>'`, `is_current = True`, primary key from the counter. -/
def newVersionRow (s : PromptState) (stripped : String)
    (changeNotes : Option String) : Version :=
  { id := s.nextId, versionNumber := nextVersionNumber s,
    promptText := stripped,
    changeNotes := changeNotes.getD ("Version " ++ toString (nextVersionNumber s)),
    isCurrent := true }

/-- The version-creating part of `update_prompt` (prompts.py): when the
request carries a non-empty (stripped) `prompt_text` that differs from the
current version's text (or no current version exists), the current
version's flag is cleared and a new current version is inserted with the
next number. Returns the new state and the created version, if any. -/
def updatePromptText (s : PromptState) (newText : String)
    (changeNotes : Option String) : PromptState × Option Version :=
  let stripped := stripStr newText
  if stripped.data.isEmpty then (s, none)
  else
    match getCurrentVersion s.versions with
    | some cur =>
      if cur.promptText == stripped then (s, none)
      else
        let nv := newVersionRow s stripped changeNotes
        ({ versions :=
             (s.versions.map (fun v =>
               if v.id == cur.id then { v with isCurrent := false } else v))
             ++ [nv],
           nextId := s.nextId + 1 }, some nv)
    | none =>
      let nv := newVersionRow s stripped changeNotes
      ({ versions := s.versions ++ [nv], nextId := s.nextId + 1 }, some nv)

/-- `set_current_version` (versions.py): under the row lock, all versions of
the prompt get `is_current = False`, then the target gets `True`; 404 when
the version id does not exist. -/
def setCurrentVersion (s : PromptState) (vid : ℕ) :
    PromptState × Except VErr Unit :=
  match s.versions.find? (fun v => v.id == vid) with
  | none => (s, Except.error VErr.notFound)
  | some _ =>
    ({ s with
        versions := s.versions.map (fun v =>
          if v.id == vid then { v with isCurrent := true }
          else { v with isCurrent := false }) },
     Except.ok ())

/-- `delete_version` (versions.py): 404 when the id does not exist; a 400
`invalidOperation` when the prompt has only one version; otherwise the row
is removed and, when it was current, the remaining row with the highest
version number becomes current. -/
def deleteVersion (s : PromptState) (vid : ℕ) :
    PromptState × Except VErr Unit :=
  match s.versions.find? (fun v => v.id == vid) with
  | none => (s, Except.error VErr.notFound)
  | some v =>
    if s.versions.length ≤ 1 then (s, Except.error VErr.invalidOperation)
    else
      let rest := s.versions.filter (fun w => w.id != vid)
      if v.isCurrent then
        match getLatestVersion rest with
        | some nc =>
          ({ s with
              versions := rest.map (fun w =>
                if w.id == nc.id then { w with isCurrent := true } else w) },
           Except.ok ())
        | none => ({ s with versions := rest }, Except.ok ())
      else ({ s with versions := rest }, Except.ok ())

/-- The inductive invariant of one prompt's version set: primary keys are
distinct and below the autoincrement counter, version numbers are distinct
(the `unique_version_per_prompt` constraint), and whenever at least one
version exists exactly one of them is current. -/
def Wf (s : PromptState) : Prop :=
  (s.versions.map (fun v => v.id)).Nodup ∧
  (∀ v ∈ s.versions, v.id < s.nextId) ∧
  (s.versions.map (fun v => v.versionNumber)).Nodup ∧
  (s.versions ≠ [] → curCount s.versions = 1)

instance (s : PromptState) : Decidable (Wf s) := by
  unfold Wf; infer_instance

/-! ### Evaluation store (evaluation.py) -/

/-- One row of `prompt_evaluations`. -/
structure EvalRecord where
  id : ℕ
  versionId : ℕ
  clarityScore : ℚ
  relevanceScore : ℚ
  lengthScore : ℚ
  finalScore : ℚ
  evaluationNotes : String
  evaluatedAt : ℕ
deriving DecidableEq, Repr

/-- The committed state one prompt's evaluation requests act on: the
prompt's version rows and task/domain tags, the stored evaluation rows in
insertion order, the autoincrement counter and the clock value stamped on
new rows. -/
structure EvalStore where
  versions : List Version
  taskType : Option String
  domain : Option String
  evals : List EvalRecord
  nextEvalId : ℕ
  now : ℕ
deriving DecidableEq, Repr

/-- `evaluate_version` (evaluation.py): 404 when the version id does not
exist; otherwise the engine scores the version's text with the prompt's
task/domain tags and a new `PromptEvaluation` row is inserted. The pair
returned is the committed state together with the route's payload. -/
def evaluateVersion (s : EvalStore) (vid : ℕ)
    (readOutcome : Option (ℚ × String)) (sent : ℚ × ℚ) :
    EvalStore × Except VErr EvalRecord :=
  match s.versions.find? (fun v => v.id == vid) with
  | none => (s, Except.error VErr.notFound)
  | some v =>
    let r := evaluateFull v.promptText s.taskType s.domain readOutcome sent
    let newRow : EvalRecord :=
      { id := s.nextEvalId, versionId := v.id,
        clarityScore := r.clarityScore, relevanceScore := r.relevanceScore,
        lengthScore := r.lengthScore, finalScore := r.finalScore,
        evaluationNotes := r.evaluationNotes, evaluatedAt := s.now }
    ({ s with evals := s.evals ++ [newRow], nextEvalId := s.nextEvalId + 1 },
     Except.ok newRow)

/-- The descending-final-score ordering used by `get_recommendation`:
`a` comes no later than `b` when `a`'s final score is at least `b`'s. -/
def scoreGe (a b : EvalRecord) : Prop := b.finalScore ≤ a.finalScore

instance : DecidableRel scoreGe := fun a b =>
  inferInstanceAs (Decidable (b.finalScore ≤ a.finalScore))

instance : IsTotal EvalRecord scoreGe :=
  ⟨fun a b => le_total b.finalScore a.finalScore⟩

instance : IsTrans EvalRecord scoreGe :=
  ⟨fun _ _ _ h1 h2 => le_trans h2 h1⟩

/-- `ORDER BY final_score DESC` over the stored rows, as a stable sort on
the insertion order (tied rows keep their storage order). -/
def sortByScoreDesc (l : List EvalRecord) : List EvalRecord :=
  List.insertionSort scoreGe l

/-- `get_recommendation` (evaluation.py): the best row is the first row of
the evaluations of the prompt's versions ordered by final score descending —
404 when there are none — and the alternatives are the rows other than the
best row (by primary key), ordered by final score descending, limited to 5.
`evals` is the join of the prompt's evaluation rows in storage order. -/
def recommend (evals : List EvalRecord) :
    Except VErr (EvalRecord × List EvalRecord) :=
  match sortByScoreDesc evals with
  | [] => Except.error VErr.notFound
  | best :: _ =>
    Except.ok (best,
      (sortByScoreDesc (evals.filter (fun e => e.id != best.id))).take 5)

/-- `get_recommendation` on a store: the joined rows are the stored
evaluation rows whose version belongs to the prompt. -/
def recommendStore (s : EvalStore) :
    Except VErr (EvalRecord × List EvalRecord) :=
  recommend (s.evals.filter (fun e =>
    s.versions.any (fun v => v.id == e.versionId)))

/-! ### List bookkeeping lemmas -/

/-- Splitting a `countP` along a second boolean predicate. -/
lemma countP_split (l : List Version) (p q : Version → Bool) :
    l.countP p
      = l.countP (fun a => p a && q a) + l.countP (fun a => p a && !q a) := by
  induction l with
  | nil => simp
  | cons a t ih =>
    by_cases hp : p a <;> by_cases hq : q a <;>
      simp [List.countP_cons, hp, hq, ih] <;> omega

/-- A map that does not touch the id field leaves the id column unchanged. -/
lemma map_id_eq (g : Version → Version) (hid : ∀ v, (g v).id = v.id)
    (vs : List Version) :
    (vs.map g).map (fun v => v.id) = vs.map (fun v => v.id) := by
  induction vs with
  | nil => rfl
  | cons a t ih => simp [hid, ih]

/-- A map that does not touch the version-number field leaves the
version-number column unchanged. -/
lemma map_num_eq (g : Version → Version)
    (hnum : ∀ v, (g v).versionNumber = v.versionNumber) (vs : List Version) :
    (vs.map g).map (fun v => v.versionNumber)
      = vs.map (fun v => v.versionNumber) := by
  induction vs with
  | nil => rfl
  | cons a t ih => simp [hnum, ih]

/-- The current version returned by `get_current_version` is a member row
with the flag set. -/
lemma getCurrentVersion_mem {vs : List Version} {c : Version}
    (h : getCurrentVersion vs = some c) : c ∈ vs ∧ c.isCurrent = true := by
  unfold getCurrentVersion at h
  cases hf : vs.filter (fun v => v.isCurrent) with
  | nil => rw [hf] at h; simp at h
  | cons a t =>
    rw [hf] at h
    simp only [List.head?_cons, Option.some.injEq] at h
    have ha : a ∈ vs.filter (fun v => v.isCurrent) := by
      rw [hf]; exact List.mem_cons_self a t
    have hm := List.mem_filter.mp ha
    rw [← h]
    exact ⟨hm.1, hm.2⟩

/-- With exactly one current row, the filter on the flag is the singleton
of the row `get_current_version` returns. -/
lemma filter_isCurrent_single {vs : List Version} {c : Version}
    (h1 : curCount vs = 1) (h2 : getCurrentVersion vs = some c) :
    vs.filter (fun v => v.isCurrent) = [c] := by
  unfold curCount at h1
  obtain ⟨a, ha⟩ := List.length_eq_one.mp h1
  unfold getCurrentVersion at h2
  rw [ha] at h2 ⊢
  simp only [List.head?_cons, Option.some.injEq] at h2
  rw [h2]

/-- With exactly one current row, every current row is that row. -/
lemma current_unique {vs : List Version} {c : Version}
    (h1 : curCount vs = 1) (h2 : getCurrentVersion vs = some c) :
    ∀ v ∈ vs, v.isCurrent = true → v = c := by
  intro v hv hcv
  have : v ∈ vs.filter (fun w => w.isCurrent) := List.mem_filter.mpr ⟨hv, hcv⟩
  rw [filter_isCurrent_single h1 h2] at this
  simpa using this

/-- Rows agreeing on a duplicate-free id column are equal. -/
lemma eq_of_id_eq {vs : List Version}
    (hnd : (vs.map (fun v => v.id)).Nodup) {v w : Version}
    (hv : v ∈ vs) (hw : w ∈ vs) (h : v.id = w.id) : v = w :=
  List.inj_on_of_nodup_map hnd hv hw h

/-- Clearing the flag of every row carrying the distinguished id clears
every flag, provided all current rows carry that id. -/
lemma curCount_flip_off {vs : List Version} {i : ℕ}
    (h : ∀ v ∈ vs, v.isCurrent = true → v.id = i) :
    curCount (vs.map (fun v =>
      if v.id == i then { v with isCurrent := false } else v)) = 0 := by
  unfold curCount
  rw [List.length_eq_zero, List.filter_eq_nil_iff]
  intro a ha
  obtain ⟨v, hv, rfl⟩ := List.mem_map.mp ha
  by_cases hb : v.id == i
  · simp [hb]
  · simp only [hb, if_neg, Bool.false_eq_true, not_false_eq_true, if_false]
    intro hc
    exact hb (by simp [h v hv hc])

/-- Counting rows by id on a duplicate-free id column containing the id
gives exactly one. -/
lemma countP_id_eq_one {vs : List Version} {i : ℕ}
    (hnd : (vs.map (fun v => v.id)).Nodup) {v : Version}
    (hv : v ∈ vs) (hid : v.id = i) :
    vs.countP (fun w => w.id == i) = 1 := by
  induction vs with
  | nil => cases hv
  | cons a t ih =>
    simp only [List.map_cons, List.nodup_cons] at hnd
    rcases List.mem_cons.mp hv with rfl | hvt
    · have : t.countP (fun w => w.id == i) = 0 := by
        rw [List.countP_eq_zero]
        intro b hb hbeq
        exact hnd.1 (List.mem_map.mpr ⟨b, hb, by
          have := of_decide_eq_true hbeq
          omega⟩)
      simp [List.countP_cons, hid, this]
    · have hne : a.id ≠ i := by
        intro hai
        exact hnd.1 (List.mem_map.mpr ⟨v, hvt, by omega⟩)
      have := ih hnd.2 hvt
      simp [List.countP_cons, hne, this]

/-- Full specification of the maximum scan `latestStep` starting from a
seed row. -/
lemma latestStep_fold_spec (vs : List Version) (w : Version) :
    ∃ u, vs.foldl latestStep (some w) = some u ∧ (u ∈ vs ∨ u = w) ∧
      w.versionNumber ≤ u.versionNumber ∧
      ∀ v ∈ vs, v.versionNumber ≤ u.versionNumber := by
  induction vs generalizing w with
  | nil => exact ⟨w, rfl, Or.inr rfl, le_refl _, by simp⟩
  | cons a t ih =>
    by_cases hlt : w.versionNumber < a.versionNumber
    · have hstep : latestStep (some w) a = some a := by simp [latestStep, hlt]
      obtain ⟨u, hu, hmem, hle, hall⟩ := ih a
      refine ⟨u, ?_, ?_, ?_, ?_⟩
      · simpa [hstep] using hu
      · rcases hmem with h | rfl
        · exact Or.inl (List.mem_cons_of_mem a h)
        · exact Or.inl (List.mem_cons_self u t)
      · exact le_trans (le_of_lt hlt) hle
      · intro v hv
        rcases List.mem_cons.mp hv with rfl | hvt
        · exact hle
        · exact hall v hvt
    · have hstep : latestStep (some w) a = some w := by simp [latestStep, hlt]
      obtain ⟨u, hu, hmem, hle, hall⟩ := ih w
      refine ⟨u, ?_, ?_, ?_, ?_⟩
      · simpa [hstep] using hu
      · rcases hmem with h | rfl
        · exact Or.inl (List.mem_cons_of_mem a h)
        · exact Or.inr rfl
      · exact hle
      · intro v hv
        rcases List.mem_cons.mp hv with rfl | hvt
        · exact le_trans (le_of_not_lt hlt) hle
        · exact hall v hvt

/-- `get_latest_version` returns nothing only on an empty history, and what
it returns is a member row with the maximal version number. -/
lemma getLatestVersion_spec (vs : List Version) :
    (getLatestVersion vs = none → vs = []) ∧
    ∀ l, getLatestVersion vs = some l →
      l ∈ vs ∧ ∀ v ∈ vs, v.versionNumber ≤ l.versionNumber := by
  cases vs with
  | nil => simp [getLatestVersion]
  | cons a t =>
    unfold getLatestVersion
    have hstep : latestStep none a = some a := rfl
    rw [List.foldl_cons, hstep]
    obtain ⟨u, hu, hmem, hle, hall⟩ := latestStep_fold_spec t a
    rw [hu]
    constructor
    · intro h
      cases h
    intro l hl
    injection hl with hl
    constructor
    · rw [← hl]
      rcases hmem with h | rfl
      · exact List.mem_cons_of_mem a h
      · exact List.mem_cons_self _ _
    · intro v hv
      rw [← hl]
      rcases List.mem_cons.mp hv with rfl | hvt
      · exact hle
      · exact hall v hvt

/-! ### Preservation of the single-current invariant -/

/-- A freshly created prompt satisfies the invariant. -/
lemma wf_createPrompt (promptText : String) : Wf (createPrompt promptText) := by
  refine ⟨by simp [createPrompt], ?_, by simp [createPrompt], ?_⟩
  · intro v hv
    simp [createPrompt] at hv
    simp [hv, createPrompt]
  · intro _
    simp [createPrompt, curCount]

/-- `set_current_version` preserves the invariant. -/
lemma wf_setCurrentVersion (s : PromptState) (vid : ℕ) (h : Wf s) :
    Wf (setCurrentVersion s vid).1 := by
  obtain ⟨hnd, hbound, hnum, hcur⟩ := h
  unfold setCurrentVersion
  cases hf : s.versions.find? (fun v => v.id == vid) with
  | none => exact ⟨hnd, hbound, hnum, hcur⟩
  | some v =>
    have hvmem : v ∈ s.versions := List.mem_of_find?_eq_some hf
    have hvid : v.id = vid := by
      have := List.find?_some hf
      exact of_decide_eq_true (by simpa using this)
    have hidpt : ∀ w : Version,
        ((if w.id == vid then { w with isCurrent := true }
          else { w with isCurrent := false }) : Version).id = w.id := by
      intro w
      by_cases hb : w.id == vid <;> simp [hb]
    have hnumpt : ∀ w : Version,
        ((if w.id == vid then { w with isCurrent := true }
          else { w with isCurrent := false }) : Version).versionNumber
          = w.versionNumber := by
      intro w
      by_cases hb : w.id == vid <;> simp [hb]
    refine ⟨?_, ?_, ?_, ?_⟩
    · rw [map_id_eq _ hidpt]
      exact hnd
    · intro w hw
      obtain ⟨w', hw', rfl⟩ := List.mem_map.mp hw
      rw [hidpt w']
      exact hbound w' hw'
    · rw [map_num_eq _ hnumpt]
      exact hnum
    · intro _
      unfold curCount
      rw [← List.countP_eq_length_filter, List.countP_map]
      have : s.versions.countP
          ((fun v : Version => v.isCurrent) ∘ (fun w =>
            if w.id == vid then { w with isCurrent := true }
            else { w with isCurrent := false }))
          = s.versions.countP (fun w => w.id == vid) := by
        apply List.countP_congr
        intro w _
        by_cases hb : w.id == vid <;> simp [Function.comp, hb]
      rw [this, countP_id_eq_one hnd hvmem hvid]

/-- A state with exactly one current row has a current version. -/
lemma getCurrentVersion_of_count {vs : List Version} (h : curCount vs = 1) :
    ∃ c, getCurrentVersion vs = some c := by
  unfold curCount at h
  obtain ⟨a, ha⟩ := List.length_eq_one.mp h
  refine ⟨a, ?_⟩
  unfold getCurrentVersion
  rw [ha]
  rfl

/-- The version-creating update preserves the invariant. -/
lemma wf_updatePromptText (s : PromptState) (txt : String) (cn : Option String)
    (h : Wf s) : Wf (updatePromptText s txt cn).1 := by
  obtain ⟨hnd, hbound, hnum, hcur⟩ := h
  unfold updatePromptText
  cases hemp : (stripStr txt).data.isEmpty with
  | true => simp only [hemp]; exact ⟨hnd, hbound, hnum, hcur⟩
  | false =>
    simp only [hemp]
    cases hget : getCurrentVersion s.versions with
    | none =>
      have hvse : s.versions = [] := by
        by_contra hne
        obtain ⟨c, hcv⟩ := getCurrentVersion_of_count (hcur hne)
        rw [hget] at hcv
        cases hcv
      simp only [Bool.false_eq_true, if_false]
      refine ⟨?_, ?_, ?_, ?_⟩
      · rw [hvse]; simp [newVersionRow]
      · intro w hw
        rw [hvse] at hw
        simp [newVersionRow] at hw
        simp [hw, newVersionRow]
      · rw [hvse]; simp [newVersionRow]
      · intro _
        rw [hvse]
        simp [curCount, newVersionRow]
    | some cur =>
      have hc := getCurrentVersion_mem hget
      have hvsne : s.versions ≠ [] := List.ne_nil_of_mem hc.1
      have hcc : curCount s.versions = 1 := hcur hvsne
      cases heq : (cur.promptText == stripStr txt) with
      | true => simp only [Bool.false_eq_true, if_false, heq, if_true]; exact ⟨hnd, hbound, hnum, hcur⟩
      | false =>
        simp only [Bool.false_eq_true, if_false, heq]
        have hflipid : ∀ v : Version,
            ((if v.id == cur.id then { v with isCurrent := false } else v) : Version).id = v.id := by
          intro v; by_cases hb : v.id == cur.id <;> simp [hb]
        have hflipnum : ∀ v : Version,
            ((if v.id == cur.id then { v with isCurrent := false } else v) : Version).versionNumber = v.versionNumber := by
          intro v; by_cases hb : v.id == cur.id <;> simp [hb]
        cases hlat : getLatestVersion s.versions with
        | none => exact absurd ((getLatestVersion_spec s.versions).1 hlat) hvsne
        | some lat =>
          have hlatm := (getLatestVersion_spec s.versions).2 lat hlat
          have hnextnum : nextVersionNumber s = lat.versionNumber + 1 := by
            unfold nextVersionNumber; rw [hlat]
          refine ⟨?_, ?_, ?_, ?_⟩
          · rw [List.map_append, map_id_eq _ hflipid]
            simp only [List.map_cons, List.map_nil]
            rw [List.nodup_append]
            refine ⟨hnd, List.nodup_singleton _, ?_⟩
            intro a ha hb
            simp [newVersionRow] at hb
            obtain ⟨v, hv, rfl⟩ := List.mem_map.mp ha
            have := hbound v hv
            omega
          · intro w hw
            rcases List.mem_append.mp hw with hw1 | hw2
            · obtain ⟨v, hv, rfl⟩ := List.mem_map.mp hw1
              rw [hflipid v]
              exact Nat.lt_succ_of_lt (hbound v hv)
            · rw [List.mem_singleton.mp hw2]
              simp [newVersionRow]
          · rw [List.map_append, map_num_eq _ hflipnum]
            simp only [List.map_cons, List.map_nil]
            rw [List.nodup_append]
            refine ⟨hnum, List.nodup_singleton _, ?_⟩
            intro a ha hb
            simp [newVersionRow, hnextnum] at hb
            obtain ⟨v, hv, rfl⟩ := List.mem_map.mp ha
            have := hlatm.2 v hv
            omega
          · intro _
            have h0 : curCount (s.versions.map (fun v =>
                if v.id == cur.id then { v with isCurrent := false } else v)) = 0 :=
              curCount_flip_off (fun v hv hcv => by
                rw [current_unique hcc hget v hv hcv])
            unfold curCount at h0 ⊢
            rw [List.filter_append, List.length_append, h0]
            simp [newVersionRow]

/-- `delete_version` preserves the invariant. -/
lemma wf_deleteVersion (s : PromptState) (vid : ℕ) (h : Wf s) :
    Wf (deleteVersion s vid).1 := by
  obtain ⟨hnd, hbound, hnum, hcur⟩ := h
  unfold deleteVersion
  cases hf : s.versions.find? (fun v => v.id == vid) with
  | none => exact ⟨hnd, hbound, hnum, hcur⟩
  | some v =>
    have hvmem : v ∈ s.versions := List.mem_of_find?_eq_some hf
    have hvid : v.id = vid := of_decide_eq_true (by simpa using List.find?_some hf)
    simp only []
    by_cases hlen : s.versions.length ≤ 1
    · rw [if_pos hlen]
      exact ⟨hnd, hbound, hnum, hcur⟩
    · rw [if_neg hlen]
      have hvsne : s.versions ≠ [] := List.ne_nil_of_mem hvmem
      have hcc : curCount s.versions = 1 := hcur hvsne
      obtain ⟨c, hgc⟩ := getCurrentVersion_of_count hcc
      have hcmem := getCurrentVersion_mem hgc
      have hrsub : (s.versions.filter (fun w => w.id != vid)).Sublist s.versions :=
        List.filter_sublist s.versions
      have hndr : ((s.versions.filter (fun w => w.id != vid)).map (fun v => v.id)).Nodup :=
        List.Nodup.sublist (hrsub.map _) hnd
      have hnumr : ((s.versions.filter (fun w => w.id != vid)).map (fun v => v.versionNumber)).Nodup :=
        List.Nodup.sublist (hrsub.map _) hnum
      have hboundr : ∀ w ∈ s.versions.filter (fun w => w.id != vid), w.id < s.nextId :=
        fun w hw => hbound w (List.mem_of_mem_filter hw)
      have hrestne : s.versions.filter (fun w => w.id != vid) ≠ [] := by
        intro h0
        have hall : ∀ w ∈ s.versions, w.id = vid := by
          intro w hw
          have := List.filter_eq_nil_iff.mp h0 w hw
          simpa using this
        match s.versions, hlen, hnd, hall with
        | [], hl, _, _ => exact hl (by simp)
        | [a], hl, _, _ => exact hl (by simp)
        | a :: b :: t, _, hnd2, hall2 =>
          simp only [List.map_cons, List.nodup_cons] at hnd2
          exact hnd2.1 (by
            rw [hall2 a (by simp), hall2 b (by simp)]
            exact List.mem_cons_self _ _)
      cases hvc : v.isCurrent with
      | false =>
        simp only [Bool.false_eq_true, if_false]
        refine ⟨hndr, hboundr, hnumr, ?_⟩
        intro _
        have hcnt : curCount (s.versions.filter (fun w => w.id != vid)) = curCount s.versions := by
          unfold curCount
          rw [← List.countP_eq_length_filter, ← List.countP_eq_length_filter,
            List.countP_filter]
          apply List.countP_congr
          intro w hw
          by_cases hwc : w.isCurrent
          · have hwe := current_unique hcc hgc w hw hwc
            have hvnec : v ≠ c := by
              intro hveq
              rw [hveq] at hvc
              rw [hcmem.2] at hvc
              cases hvc
            have hwid : w.id ≠ vid := by
              intro hwid
              exact hvnec ((eq_of_id_eq hnd hvmem hw (by rw [hvid, hwid])).trans hwe)
            simp [hwc, hwid]
          · simp [hwc]
        rw [hcnt]
        exact hcc
      | true =>
        simp only [if_true]
        have hveqc : v = c := current_unique hcc hgc v hvmem hvc
        have hnocur : ∀ w ∈ s.versions.filter (fun w => w.id != vid), w.isCurrent = false := by
          intro w hw
          have hw' := List.mem_filter.mp hw
          by_contra hwc
          have hwc' : w.isCurrent = true := by
            cases hwcv : w.isCurrent
            · exact absurd hwcv hwc
            · rfl
          have hwe := current_unique hcc hgc w hw'.1 hwc'
          have : w.id = vid := by rw [hwe, ← hveqc, hvid]
          rw [this] at hw'
          simp at hw'
        cases hlat : getLatestVersion (s.versions.filter (fun w => w.id != vid)) with
        | none => exact absurd ((getLatestVersion_spec _).1 hlat) hrestne
        | some nc =>
          have hncm := (getLatestVersion_spec _).2 nc hlat
          have hpid : ∀ w : Version,
              ((if w.id == nc.id then { w with isCurrent := true } else w) : Version).id = w.id := by
            intro w; by_cases hb : w.id == nc.id <;> simp [hb]
          have hpnum : ∀ w : Version,
              ((if w.id == nc.id then { w with isCurrent := true } else w) : Version).versionNumber = w.versionNumber := by
            intro w; by_cases hb : w.id == nc.id <;> simp [hb]
          refine ⟨?_, ?_, ?_, ?_⟩
          · rw [map_id_eq _ hpid]
            exact hndr
          · intro w hw
            obtain ⟨w', hw', rfl⟩ := List.mem_map.mp hw
            rw [hpid w']
            exact hboundr w' hw'
          · rw [map_num_eq _ hpnum]
            exact hnumr
          · intro _
            unfold curCount
            rw [← List.countP_eq_length_filter, List.countP_map]
            have hstep : (s.versions.filter (fun w => w.id != vid)).countP
                ((fun v : Version => v.isCurrent) ∘ (fun w =>
                  if w.id == nc.id then { w with isCurrent := true } else w))
                = (s.versions.filter (fun w => w.id != vid)).countP
                  (fun w => w.id == nc.id) := by
              apply List.countP_congr
              intro w hw
              by_cases hb : w.id == nc.id
              · simp [Function.comp, hb]
              · simp [Function.comp, hb, hnocur w hw]
            rw [hstep, countP_id_eq_one hndr hncm.1 rfl]

/-! ### Claim theorems -/

/-- C1: for every prompt that has at least one version, exactly one of its
versions has is-current = true, and this invariant (bundled with the
primary-key and version-number bookkeeping that makes it inductive, `Wf`) is
established by creating a prompt with its initial version and preserved by
updating prompt text, promoting a version to current, and deleting a version
(including the current one). -/
theorem singleCurrentInvariant :
    (∀ s : PromptState, Wf s → s.versions ≠ [] → curCount s.versions = 1) ∧
    (∀ text, Wf (createPrompt text)) ∧
    (∀ s txt cn, Wf s → Wf (updatePromptText s txt cn).1) ∧
    (∀ s vid, Wf s → Wf (setCurrentVersion s vid).1) ∧
    (∀ s vid, Wf s → Wf (deleteVersion s vid).1) :=
  ⟨fun _ hs => hs.2.2.2, wf_createPrompt, wf_updatePromptText,
   wf_setCurrentVersion, wf_deleteVersion⟩

/-- Witness for C1 at concrete states. -/
theorem singleCurrentInvariant_witness :
    curCount (createPrompt "alpha").versions = 1 ∧
    Wf (createPrompt "alpha") ∧
    Wf (updatePromptText (createPrompt "alpha") "beta" none).1 ∧
    Wf (setCurrentVersion (createPrompt "alpha") 0).1 ∧
    Wf (deleteVersion (createPrompt "alpha") 0).1 :=
  ⟨singleCurrentInvariant.1 (createPrompt "alpha") (by decide) (by decide),
   singleCurrentInvariant.2.1 "alpha",
   singleCurrentInvariant.2.2.1 (createPrompt "alpha") "beta" none (by decide),
   singleCurrentInvariant.2.2.2.1 (createPrompt "alpha") 0 (by decide),
   singleCurrentInvariant.2.2.2.2 (createPrompt "alpha") 0 (by decide)⟩

/-- C2, counterexample: version numbers are reused after deleting the
highest-numbered version. Create a prompt (version 1), update (version 2),
delete version 2 (primary key 1), then update again: the new version is
assigned number 2 again, so the number 2, once assigned and then deleted, is
recycled. -/
theorem versionNumberReuse_cex :
    ((updatePromptText (createPrompt "alpha") "beta" none).1.versions.map
        (fun v => v.versionNumber) = [1, 2]) ∧
    ((deleteVersion (updatePromptText (createPrompt "alpha") "beta" none).1
        1).1.versions.map (fun v => v.versionNumber) = [1]) ∧
    ((updatePromptText (deleteVersion
        (updatePromptText (createPrompt "alpha") "beta" none).1 1).1
        "gamma" none).2.map (fun v => v.versionNumber) = some 2) := by
  decide

/-- C2, amended: a newly assigned version number is the latest (maximal)
existing version number plus one, hence strictly greater than every number
currently present — so it never collides with a live number — but nothing
prevents it from repeating the number of a previously deleted version. -/
theorem versionNumberFresh (s : PromptState) (txt : String)
    (cn : Option String) (nv : Version)
    (h : (updatePromptText s txt cn).2 = some nv) :
    nv.versionNumber = nextVersionNumber s ∧
    (∀ l, getLatestVersion s.versions = some l →
      nv.versionNumber = l.versionNumber + 1) ∧
    ∀ v ∈ s.versions, v.versionNumber < nv.versionNumber := by
  have hnum : nv.versionNumber = nextVersionNumber s := by
    unfold updatePromptText at h
    cases hemp : (stripStr txt).data.isEmpty with
    | true => simp [hemp] at h
    | false =>
      simp only [hemp, Bool.false_eq_true, if_false] at h
      cases hget : getCurrentVersion s.versions with
      | none =>
        rw [hget] at h
        simp only [Option.some.injEq] at h
        rw [← h]
        rfl
      | some cur =>
        rw [hget] at h
        cases heq : (cur.promptText == stripStr txt) with
        | true => simp [heq] at h
        | false =>
          simp only [heq, Bool.false_eq_true, if_false, Option.some.injEq] at h
          rw [← h]
          rfl
  refine ⟨hnum, ?_, ?_⟩
  · intro l hl
    rw [hnum]
    unfold nextVersionNumber
    rw [hl]
  · intro v hv
    rw [hnum]
    unfold nextVersionNumber
    cases hlat : getLatestVersion s.versions with
    | none =>
      rw [(getLatestVersion_spec s.versions).1 hlat] at hv
      cases hv
    | some lat =>
      have := ((getLatestVersion_spec s.versions).2 lat hlat).2 v hv
      show v.versionNumber < lat.versionNumber + 1
      omega

/-- Witness for C2's amended theorem at a concrete update. -/
theorem versionNumberFresh_witness :
    ((⟨1, 2, "beta", "Version 2", true⟩ : Version).versionNumber
      = nextVersionNumber (createPrompt "alpha")) ∧
    (∀ l, getLatestVersion (createPrompt "alpha").versions = some l →
      (⟨1, 2, "beta", "Version 2", true⟩ : Version).versionNumber
        = l.versionNumber + 1) ∧
    ∀ v ∈ (createPrompt "alpha").versions,
      v.versionNumber
        < (⟨1, 2, "beta", "Version 2", true⟩ : Version).versionNumber :=
  versionNumberFresh (createPrompt "alpha") "beta" none _ (by decide)

/-- C5: an update whose new text strips to exactly the current version's
text is a no-op on the version store — no new version is created, the state
(hence the version set and the current flag and text) is unchanged, and the
existing current version is still the current one. -/
theorem updateSameTextNoop (s : PromptState) (txt : String)
    (cn : Option String) (cur : Version)
    (hcur : getCurrentVersion s.versions = some cur)
    (heq : cur.promptText = stripStr txt) :
    updatePromptText s txt cn = (s, none) ∧
    getCurrentVersion (updatePromptText s txt cn).1.versions = some cur := by
  have h1 : updatePromptText s txt cn = (s, none) := by
    unfold updatePromptText
    cases hemp : (stripStr txt).data.isEmpty with
    | true => simp [hemp]
    | false =>
      simp only [hemp, Bool.false_eq_true, if_false]
      rw [hcur]
      have hbeq : (cur.promptText == stripStr txt) = true := by
        rw [heq]
        simp
      simp [hbeq]
  exact ⟨h1, by rw [h1]; exact hcur⟩

/-- Witness for C5 at a concrete state. -/
theorem updateSameTextNoop_witness :
    updatePromptText (createPrompt "alpha") "  alpha " none
      = (createPrompt "alpha", none) ∧
    getCurrentVersion (updatePromptText (createPrompt "alpha")
        "  alpha " none).1.versions
      = some (⟨0, 1, "alpha", "Initial version", true⟩ : Version) :=
  updateSameTextNoop (createPrompt "alpha") "  alpha " none _
    (by decide) (by decide)

/-- C6: deleting a version of a prompt that has exactly one version fails
with `invalidOperation` and the state — in particular the version count and
the version itself — is unchanged. -/
theorem deleteSoleVersionFails (s : PromptState) (vid : ℕ)
    (hlen : s.versions.length = 1)
    (hfind : (s.versions.find? (fun v => v.id == vid)).isSome) :
    deleteVersion s vid = (s, Except.error VErr.invalidOperation) := by
  obtain ⟨v, hv⟩ := Option.isSome_iff_exists.mp hfind
  unfold deleteVersion
  rw [hv]
  simp only []
  rw [if_pos (by omega : s.versions.length ≤ 1)]

/-- Witness for C6 at a concrete one-version prompt. -/
theorem deleteSoleVersionFails_witness :
    deleteVersion (createPrompt "alpha") 0
      = (createPrompt "alpha", Except.error VErr.invalidOperation) :=
  deleteSoleVersionFails (createPrompt "alpha") 0 (by decide) (by decide)

/-- C3, counterexample: for the text "Write a function." with task type
generation and domain coding, the relevance score is 63, not 48 — the claim
overlooks that "function" is on the coding domain keyword table, so the
domain rule adds +5 instead of applying the −10 no-match penalty. -/
theorem scenarioScores_cex :
    (calcRelevance "Write a function." (some "generation")
      (some "coding")).score = 63 ∧
    ¬ (calcRelevance "Write a function." (some "generation")
      (some "coding")).score = 48 := by
  with_unfolding_all decide

/-- C3, amended: for "Write a function." with task_type = generation and
domain = coding the relevance score is 63 (base 50, +8 for the generation
keyword "write", +5 for the coding keyword "function", no context or format
bonus), and the length score is (3/5)*30 = 18 because the word count is 3. -/
theorem scenarioScores :
    (calcRelevance "Write a function." (some "generation")
      (some "coding")).score = 63 ∧
    (calcRelevance "Write a function." (some "generation")
      (some "coding")).taskMatches = ["write"] ∧
    (calcRelevance "Write a function." (some "generation")
      (some "coding")).domainMatches = ["function"] ∧
    (calcLength "Write a function.").score = 18 ∧
    (calcLength "Write a function.").wordCount = 3 := by
  with_unfolding_all decide

/-- C4, counterexample: the recommendation query has no tie-break on
evaluation timestamp or version number. Two evaluations share the top final
score; the one stored first — with the OLDER timestamp and the LOWER
version — is returned as best, while the claim's tie-break would demand the
more recent one. -/
theorem recommendTieBreak_cex :
    recommendStore ⟨[⟨1, 1, "a", "", false⟩, ⟨2, 2, "b", "", true⟩],
        none, none,
        [⟨1, 1, 80, 60, 70, 90, "", 10⟩, ⟨2, 2, 80, 60, 70, 90, "", 20⟩],
        3, 30⟩
      = Except.ok (⟨1, 1, 80, 60, 70, 90, "", 10⟩,
                   [⟨2, 2, 80, 60, 70, 90, "", 20⟩]) ∧
    (⟨1, 1, 80, 60, 70, 90, "", 10⟩ : EvalRecord).finalScore
      = (⟨2, 2, 80, 60, 70, 90, "", 20⟩ : EvalRecord).finalScore ∧
    (⟨1, 1, 80, 60, 70, 90, "", 10⟩ : EvalRecord).evaluatedAt
      < (⟨2, 2, 80, 60, 70, 90, "", 20⟩ : EvalRecord).evaluatedAt ∧
    (⟨1, 1, 80, 60, 70, 90, "", 10⟩ : EvalRecord).versionId
      < (⟨2, 2, 80, 60, 70, 90, "", 20⟩ : EvalRecord).versionId :=
  ⟨rfl, rfl, by decide, by decide⟩

/-- C4, amended: `recommend` returns NotFound exactly on an empty set of
evaluation rows (no version ever evaluated); otherwise the best row carries
a maximal final score — ties resolved by the store's row order, there is no
timestamp or version-number tie-break in the code — and at most 5
alternatives, each a stored row other than the best row (by evaluation id),
ordered by descending final score. -/
theorem recommendSpec :
    (∀ evals : List EvalRecord, evals = [] →
        recommend evals = Except.error VErr.notFound) ∧
    (∀ evals best alts, recommend evals = Except.ok (best, alts) →
      evals ≠ [] ∧ best ∈ evals ∧
      (∀ e ∈ evals, e.finalScore ≤ best.finalScore) ∧
      alts.length ≤ 5 ∧ List.Sorted scoreGe alts ∧
      (∀ a ∈ alts, a ∈ evals ∧ a.id ≠ best.id)) := by
  constructor
  · intro evals h
    subst h
    rfl
  · intro evals best alts h
    unfold recommend at h
    cases hs : sortByScoreDesc evals with
    | nil => rw [hs] at h; cases h
    | cons b rest =>
      rw [hs] at h
      simp only [Except.ok.injEq, Prod.mk.injEq] at h
      obtain ⟨hb, ha⟩ := h
      have hperm : List.Perm (sortByScoreDesc evals) evals :=
        List.perm_insertionSort scoreGe evals
      have hsorted : List.Sorted scoreGe (sortByScoreDesc evals) :=
        List.sorted_insertionSort scoreGe evals
      rw [hs] at hperm hsorted
      refine ⟨?_, ?_, ?_, ?_, ?_, ?_⟩
      · intro he
        rw [he] at hperm
        have := hperm.length_eq
        simp at this
      · rw [← hb]
        exact hperm.subset (List.mem_cons_self b rest)
      · intro e he
        have hmem : e ∈ b :: rest := hperm.symm.subset he
        rw [← hb]
        rcases List.mem_cons.mp hmem with rfl | ht
        · exact le_refl _
        · exact List.rel_of_sorted_cons hsorted e ht
      · rw [← ha]
        exact List.length_take_le 5 _
      · rw [← ha]
        exact List.Pairwise.sublist (List.take_sublist 5 _)
          (List.sorted_insertionSort scoreGe _)
      · intro a haalts
        rw [← ha] at haalts
        have h1 : a ∈ sortByScoreDesc
            (evals.filter (fun e => e.id != b.id)) :=
          (List.take_sublist 5 _).subset haalts
        have h2 : a ∈ evals.filter (fun e => e.id != b.id) :=
          (List.perm_insertionSort scoreGe _).subset h1
        have h3 := List.mem_filter.mp h2
        refine ⟨h3.1, ?_⟩
        rw [← hb]
        simpa using h3.2

/-- Witness for C4's amended theorem at concrete evaluation lists. -/
theorem recommendSpec_witness :
    recommend ([] : List EvalRecord) = Except.error VErr.notFound ∧
    (([(⟨1, 1, 80, 60, 70, 90, "", 10⟩ : EvalRecord)] : List EvalRecord) ≠ [] ∧
     (⟨1, 1, 80, 60, 70, 90, "", 10⟩ : EvalRecord)
       ∈ [(⟨1, 1, 80, 60, 70, 90, "", 10⟩ : EvalRecord)] ∧
     (∀ e ∈ [(⟨1, 1, 80, 60, 70, 90, "", 10⟩ : EvalRecord)],
       e.finalScore ≤ (⟨1, 1, 80, 60, 70, 90, "", 10⟩ : EvalRecord).finalScore) ∧
     ([] : List EvalRecord).length ≤ 5 ∧
     List.Sorted scoreGe ([] : List EvalRecord) ∧
     (∀ a ∈ ([] : List EvalRecord),
       a ∈ [(⟨1, 1, 80, 60, 70, 90, "", 10⟩ : EvalRecord)] ∧
       a.id ≠ (⟨1, 1, 80, 60, 70, 90, "", 10⟩ : EvalRecord).id)) :=
  ⟨recommendSpec.1 [] rfl,
   recommendSpec.2 [⟨1, 1, 80, 60, 70, 90, "", 10⟩]
     ⟨1, 1, 80, 60, 70, 90, "", 10⟩ [] rfl⟩

/-- C7: evaluating an existing version appends exactly one new Evaluation
row tied to that version — the stored rows are the old rows unchanged plus
one — and evaluating a missing version returns NotFound leaving the store
untouched. -/
theorem evaluateCreatesOneRecord (s : EvalStore) (vid : ℕ)
    (ro : Option (ℚ × String)) (se : ℚ × ℚ) :
    (s.versions.find? (fun v => v.id == vid) = none →
      evaluateVersion s vid ro se = (s, Except.error VErr.notFound)) ∧
    (∀ w, s.versions.find? (fun v => v.id == vid) = some w →
      ∃ e, (evaluateVersion s vid ro se).2 = Except.ok e ∧
        e.versionId = vid ∧
        (evaluateVersion s vid ro se).1.evals = s.evals ++ [e] ∧
        (evaluateVersion s vid ro se).1.evals.take s.evals.length = s.evals ∧
        (evaluateVersion s vid ro se).1.evals.length = s.evals.length + 1 ∧
        (evaluateVersion s vid ro se).1.versions = s.versions) := by
  constructor
  · intro h
    unfold evaluateVersion
    rw [h]
  · intro w hw
    have hwid : w.id = vid :=
      of_decide_eq_true (by simpa using List.find?_some hw)
    unfold evaluateVersion
    rw [hw]
    refine ⟨_, rfl, ?_, rfl, ?_, ?_, rfl⟩
    · simpa using hwid
    · exact List.take_left _ _
    · simp

/-- Witness for C7 at a concrete store: a missing id fails with NotFound
and an existing id appends one row. -/
theorem evaluateCreatesOneRecord_witness :
    (evaluateVersion ⟨[⟨1, 1, "Summarize the report", "", true⟩],
        some "summarization", none, [], 0, 3⟩ 99 none (0, 0)
      = (⟨[⟨1, 1, "Summarize the report", "", true⟩],
          some "summarization", none, [], 0, 3⟩,
         Except.error VErr.notFound)) ∧
    ∃ e, (evaluateVersion ⟨[⟨1, 1, "Summarize the report", "", true⟩],
        some "summarization", none, [], 0, 3⟩ 1 none (0, 0)).2 = Except.ok e ∧
      e.versionId = 1 ∧
      (evaluateVersion ⟨[⟨1, 1, "Summarize the report", "", true⟩],
        some "summarization", none, [], 0, 3⟩ 1 none (0, 0)).1.evals
        = ([] : List EvalRecord) ++ [e] ∧
      (evaluateVersion ⟨[⟨1, 1, "Summarize the report", "", true⟩],
        some "summarization", none, [], 0, 3⟩ 1 none (0, 0)).1.evals.take
          ([] : List EvalRecord).length = ([] : List EvalRecord) ∧
      (evaluateVersion ⟨[⟨1, 1, "Summarize the report", "", true⟩],
        some "summarization", none, [], 0, 3⟩ 1 none (0, 0)).1.evals.length
        = ([] : List EvalRecord).length + 1 ∧
      (evaluateVersion ⟨[⟨1, 1, "Summarize the report", "", true⟩],
        some "summarization", none, [], 0, 3⟩ 1 none (0, 0)).1.versions
        = [⟨1, 1, "Summarize the report", "", true⟩] :=
  ⟨(evaluateCreatesOneRecord ⟨[⟨1, 1, "Summarize the report", "", true⟩],
      some "summarization", none, [], 0, 3⟩ 99 none (0, 0)).1 rfl,
   (evaluateCreatesOneRecord ⟨[⟨1, 1, "Summarize the report", "", true⟩],
      some "summarization", none, [], 0, 3⟩ 1 none (0, 0)).2
     ⟨1, 1, "Summarize the report", "", true⟩ rfl⟩

/-- C8: when the readability estimator fails (the `try/except` case), the
engine still returns a complete result whose readability block is the
neutral fallback — ease 50, grade "N/A", no notes — and the clarity,
relevance, length and final scores are the same as under any estimator
outcome; `evaluateFull` is total, so no error is ever surfaced. -/
theorem scoreReadabilityFallback (text : String)
    (taskType domain : Option String) (sent : ℚ × ℚ) :
    (evaluateFull text taskType domain none sent).readability
        = ⟨50, "N/A", []⟩ ∧
    ∀ outcome,
      (evaluateFull text taskType domain outcome sent).clarityScore
          = (evaluateFull text taskType domain none sent).clarityScore ∧
      (evaluateFull text taskType domain outcome sent).relevanceScore
          = (evaluateFull text taskType domain none sent).relevanceScore ∧
      (evaluateFull text taskType domain outcome sent).lengthScore
          = (evaluateFull text taskType domain none sent).lengthScore ∧
      (evaluateFull text taskType domain outcome sent).finalScore
          = (evaluateFull text taskType domain none sent).finalScore := by
  refine ⟨?_, fun outcome => ⟨rfl, rfl, rfl, rfl⟩⟩
  show calcReadability none = _
  with_unfolding_all rfl

/-- C9: scoring is deterministic — two calls with identical text, task
type, domain and identical external-estimator outcomes produce identical
results (all scores and notes). -/
theorem scoreDeterministic (t1 t2 : String) (tt1 tt2 d1 d2 : Option String)
    (o1 o2 : Option (ℚ × String)) (p1 p2 : ℚ × ℚ)
    (ht : t1 = t2) (htt : tt1 = tt2) (hd : d1 = d2) (ho : o1 = o2)
    (hp : p1 = p2) :
    evaluateFull t1 tt1 d1 o1 p1 = evaluateFull t2 tt2 d2 o2 p2 := by
  subst ht htt hd ho hp
  rfl

/-- Witness for C9 at a concrete input. -/
theorem scoreDeterministic_witness :
    evaluateFull "Explain the theory" (some "analysis") none none (0, 0)
      = evaluateFull "Explain the theory" (some "analysis") none none (0, 0) :=
  scoreDeterministic _ _ _ _ _ _ _ _ _ _ rfl rfl rfl rfl rfl

/-- C10: the alternatives exclude only the best evaluation row (by
evaluation id), not the best version: with two evaluation rows on the same
single version, the recommendation and the alternative refer to the same
version. -/
theorem recommendSameVersionAlternative :
    recommendStore ⟨[⟨1, 1, "draft text", "", true⟩], none, none,
        [⟨1, 1, 80, 60, 70, 90, "", 5⟩, ⟨2, 1, 70, 60, 70, 80, "", 6⟩],
        3, 7⟩
      = Except.ok (⟨1, 1, 80, 60, 70, 90, "", 5⟩,
                   [⟨2, 1, 70, 60, 70, 80, "", 6⟩]) ∧
    (⟨1, 1, 80, 60, 70, 90, "", 5⟩ : EvalRecord).versionId
      = (⟨2, 1, 70, 60, 70, 80, "", 6⟩ : EvalRecord).versionId :=
  ⟨rfl, rfl⟩

end PromptMgr
